import Mathlib

/-!
Analysis reconciliation of the metrics operator.

A shallow embedding of `metrics-operator/controllers/analysis/controller.go`
and of the status types of `metrics-operator/api/v1alpha3/analysis_types.go`.

* Go maps are association lists read with `List.lookup`; a nil map is `none`
  where the controller can tell nil from empty.
* The external collaborators of the reconciler (the Kubernetes client, the
  workers pool, the evaluator, the key function and the JSON encoder) are
  fields of `AnalysisReconciler`: they answer as functions of what they are
  called with.
* A call of `Reconcile` yields a `Run`: the collaborator calls it made, in
  order, and what it returned (`none` when the Go code panics).  Logging is
  not recorded.
-/

namespace Keptn

/-! ## Data model -/

/-- Reference to a namespaced object.  The declaration is outside the embedded
files; the controller reads `Name` and `Namespace`. -/
structure ObjectReference where
  Name : String
  Namespace : String
deriving DecidableEq, Repr

/-- The key of a request, `types.NamespacedName`. -/
structure NamespacedName where
  Namespace : String
  Name : String
deriving DecidableEq, Repr

/-- A Go `error` value as far as the controller inspects it: `notFound` is the
answer of `errors.IsNotFound`. -/
structure GoError where
  msg : String
  notFound : Bool
deriving DecidableEq, Repr

/-- Type `ProviderResult` of `analysis_types.go`. -/
structure ProviderResult where
  Objective : ObjectReference
  Value : String
  ErrMsg : String
deriving DecidableEq, Repr

/-- A non-nil `map[string]ProviderResult`. -/
abbrev StoredMap := List (String × ProviderResult)

/-- Map read `m[k]` with its `ok` flag. -/
def StoredMap.get? (m : StoredMap) (k : String) : Option ProviderResult :=
  List.lookup k m

/-- Map write `m[k] = v`: the older binding of `k`, if any, is replaced. -/
def StoredMap.set (m : StoredMap) (k : String) (v : ProviderResult) : StoredMap :=
  (k, v) :: m.filter (fun e => e.1 ≠ k)

/-- Map read on a map that may be nil: a nil map reads as empty. -/
def readMap (m : Option StoredMap) (k : String) : Option ProviderResult :=
  match m with
  | none => none
  | some s => s.get? k

/-- Type `Timeframe` of `analysis_types.go`; a `metav1.Time` is a number of seconds. -/
structure Timeframe where
  From : Int
  To : Int
deriving DecidableEq, Repr

/-- Type `AnalysisSpec` of `analysis_types.go`. -/
structure AnalysisSpec where
  Timeframe : Timeframe
  Args : List (String × String)
  AnalysisDefinition : ObjectReference
deriving DecidableEq, Repr

/-- Type `AnalysisStatus` of `analysis_types.go`. -/
structure AnalysisStatus where
  Raw : String
  Pass : Bool
  Warning : Bool
  StoredValues : Option StoredMap
deriving DecidableEq, Repr

/-- Type `Analysis` of `analysis_types.go`, with the name and namespace of its
object metadata. -/
structure Analysis where
  Name : String
  Namespace : String
  Spec : AnalysisSpec
  Status : AnalysisStatus
deriving DecidableEq, Repr

/-- An objective of a definition.  The declaration is outside the embedded
files; these are the fields the controller reads. -/
structure Objective where
  AnalysisValueTemplateRef : ObjectReference
  KeyObjective : Bool
  Weight : Int
deriving DecidableEq, Repr

/-- Spec of an `AnalysisDefinition`.  The declaration is outside the embedded
files; the controller reads `Objectives`. -/
structure AnalysisDefinitionSpec where
  Objectives : List Objective
deriving DecidableEq, Repr

/-- An `AnalysisDefinition`. -/
structure AnalysisDefinition where
  Name : String
  Namespace : String
  Spec : AnalysisDefinitionSpec
deriving DecidableEq, Repr

/-- The verdict `evalType.AnalysisResult` as far as the controller reads it. -/
structure AnalysisResult where
  Pass : Bool
  Warning : Bool
deriving DecidableEq, Repr

/-- Type `ctrl.Result`; `RequeueAfter` is a `time.Duration` in nanoseconds. -/
structure Result where
  Requeue : Bool := false
  RequeueAfter : Nat := 0
deriving DecidableEq, Repr

/-- The duration `time.Second`. -/
def Second : Nat := 1000000000

/-- The collaborator calls a reconcile makes. -/
inductive Event where
  | newWorkersPool (analysis : Analysis) (todo : List Objective) (maxWorkers : Int)
  | dispatchAndCollect
  | evaluate (res : Option StoredMap) (analysisDef : AnalysisDefinition)
  | reportResultsAsPromMetric (eval : AnalysisResult) (analysis : Analysis)
  | statusUpdate (analysis : Analysis)
deriving DecidableEq, Repr

/-- What a call of `Reconcile` did: the calls made and the returned pair, or
`none` for a panic. -/
structure Run where
  trace : List Event
  ret : Option (Result × Option GoError)
deriving DecidableEq, Repr

/-- Type `AnalysisReconciler` with its collaborators. -/
structure AnalysisReconciler where
  /-- Call `Client.Get` for an `Analysis`. -/
  GetAnalysis : NamespacedName → Except GoError Analysis
  /-- Call `Client.Get` for an `AnalysisDefinition`. -/
  GetAnalysisDefinition : NamespacedName → Except GoError AnalysisDefinition
  /-- Call `Client.Status().Update`. -/
  StatusUpdate : Analysis → Option GoError
  MaxWorkers : Int
  Namespace : String
  /-- Call of `NewWorkersPoolFactory` followed by `DispatchAndCollect` on the pool it
  returns: the collected map (possibly nil) and the error. -/
  DispatchAndCollect : Analysis → List Objective → Int → Option StoredMap × Option GoError
  /-- Call `IAnalysisEvaluator.Evaluate`. -/
  Evaluate : Option StoredMap → AnalysisDefinition → AnalysisResult
  /-- Function `common.ComputeKey`. -/
  ComputeKey : ObjectReference → String
  /-- Call `json.Marshal` of a verdict. -/
  Marshal : AnalysisResult → Except GoError String

/-! ## The controller -/

/-- One turn of the loop of `extractMissingObjectives`. -/
def extractStep (ComputeKey : ObjectReference → String) (status : StoredMap)
    (acc : List Objective × StoredMap) (obj : Objective) : List Objective × StoredMap :=
  let key := ComputeKey obj.AnalysisValueTemplateRef
  match status.get? key with
  | some value =>
    if value.ErrMsg ≠ "" then (acc.1 ++ [obj], acc.2)
    else (acc.1, acc.2.set key value)
  | none => (acc.1 ++ [obj], acc.2)

/-- Function `extractMissingObjectives`: the objectives still to query and the stored
results that need no new query. -/
def extractMissingObjectives (ComputeKey : ObjectReference → String)
    (objectives : List Objective) (status : StoredMap) : List Objective × StoredMap :=
  objectives.foldl (extractStep ComputeKey status) ([], [])

/-- Call `maps.Copy(dst, src)`: every binding of `src` is written into `dst`.
Writing into a nil map panics (`none`); with nothing to write a nil `dst`
stays nil. -/
def mapsCopy (dst : Option StoredMap) (src : StoredMap) : Option (Option StoredMap) :=
  match src, dst with
  | [], d => some d
  | _ :: _, none => none
  | s, some d => some (some (s.foldl (fun m e => m.set e.1 e.2) d))

/-- Method `updateStatus`: the error of the status write, if any. -/
def updateStatus (a : AnalysisReconciler) (analysis : Analysis) : List Event × Option GoError :=
  ([Event.statusUpdate analysis], a.StatusUpdate analysis)

/-- The status after `evaluateObjectives` applied a verdict to it. -/
def applyVerdict (a : AnalysisReconciler) (eval : AnalysisResult) (analysis : Analysis) :
    Analysis :=
  let analysis1 : Analysis :=
    match a.Marshal eval with
    | .error _ => analysis
    | .ok analysisResultJSON =>
      { analysis with Status := { analysis.Status with Raw := analysisResultJSON } }
  let analysis2 : Analysis :=
    if eval.Warning then { analysis1 with Status := { analysis1.Status with Warning := true } }
    else analysis1
  { analysis2 with Status := { analysis2.Status with Pass := eval.Pass } }

/-- Method `evaluateObjectives`. -/
def evaluateObjectives (a : AnalysisReconciler) (res : Option StoredMap)
    (analysisDef : AnalysisDefinition) (analysis : Analysis) : List Event × Option GoError :=
  let eval := a.Evaluate res analysisDef
  let analysis1 := applyVerdict a eval analysis
  let upd := updateStatus a analysis1
  (Event.evaluate res analysisDef :: Event.reportResultsAsPromMetric eval analysis1 :: upd.1,
    upd.2)

/-- The objectives to query and the stored results kept, as `Reconcile`
computes them from the status it loaded. -/
def partitionObjectives (a : AnalysisReconciler) (analysisDef : AnalysisDefinition)
    (analysis : Analysis) : List Objective × StoredMap :=
  match analysis.Status.StoredValues with
  | none => (analysisDef.Spec.Objectives, [])
  | some sv => extractMissingObjectives a.ComputeKey analysisDef.Spec.Objectives sv

/-- The analysis as `Reconcile` holds it after defaulting the namespace of the
definition reference. -/
def defaultNamespace (a : AnalysisReconciler) (analysis : Analysis) : Analysis :=
  if analysis.Spec.AnalysisDefinition.Namespace = "" then
    { analysis with
      Spec := { analysis.Spec with
        AnalysisDefinition := { analysis.Spec.AnalysisDefinition with Namespace := a.Namespace } } }
  else analysis

/-- The part of `Reconcile` after a successful dispatch decision: workers pool,
then either the cached failure or the merge and the evaluation. -/
def dispatchAndEvaluate (a : AnalysisReconciler) (analysisDef : AnalysisDefinition)
    (analysis : Analysis) (todo : List Objective) (done : StoredMap) : Run :=
  let pool := [Event.newWorkersPool analysis todo a.MaxWorkers, Event.dispatchAndCollect]
  let out := a.DispatchAndCollect analysis todo a.MaxWorkers
  match out.2 with
  | some _ =>
    let analysis1 : Analysis :=
      { analysis with Status := { analysis.Status with StoredValues := out.1 } }
    let upd := updateStatus a analysis1
    ⟨pool ++ upd.1, some ({ RequeueAfter := 10 * Second }, upd.2)⟩
  | none =>
    match mapsCopy out.1 done with
    | none => ⟨pool, none⟩
    | some res =>
      let ev := evaluateObjectives a res analysisDef analysis
      ⟨pool ++ ev.1, some ({}, ev.2)⟩

/-- The part of `Reconcile` after both objects were loaded. -/
def reconcileLoaded (a : AnalysisReconciler) (analysisDef : AnalysisDefinition)
    (analysis : Analysis) : Run :=
  let part := partitionObjectives a analysisDef analysis
  if analysis.Status.StoredValues.isSome ∧ part.1.length = 0 then
    ⟨[], some ({}, none)⟩
  else
    dispatchAndEvaluate a analysisDef analysis part.1 part.2

/-- Method `AnalysisReconciler.Reconcile`. -/
def Reconcile (a : AnalysisReconciler) (req : NamespacedName) : Run :=
  match a.GetAnalysis req with
  | .error err =>
    if err.notFound then ⟨[], some ({}, none)⟩
    else ⟨[], some ({}, some err)⟩
  | .ok fetched =>
    let analysis := defaultNamespace a fetched
    match a.GetAnalysisDefinition
        ⟨analysis.Spec.AnalysisDefinition.Namespace, analysis.Spec.AnalysisDefinition.Name⟩ with
    | .error err =>
      if err.notFound then ⟨[], some ({ Requeue := true, RequeueAfter := 10 * Second }, none)⟩
      else ⟨[], some ({ RequeueAfter := 10 * Second }, none)⟩
    | .ok analysisDef => reconcileLoaded a analysisDef analysis

/-- Whether a stored map (possibly nil) holds, at a key, a result without error:
the resolved keys of the spec. -/
def isResolved (stored : Option StoredMap) (k : String) : Bool :=
  match readMap stored k with
  | some value => decide (value.ErrMsg = "")
  | none => false

/-- The reads of a reconcile succeed: the request yields an analysis, which
after the defaulting of the namespace is `analysis`, and the definition it
refers to is `analysisDef`. -/
def Loads (a : AnalysisReconciler) (req : NamespacedName) (analysis : Analysis)
    (analysisDef : AnalysisDefinition) : Prop :=
  ∃ fetched, a.GetAnalysis req = .ok fetched ∧ analysis = defaultNamespace a fetched ∧
    a.GetAnalysisDefinition
      ⟨analysis.Spec.AnalysisDefinition.Namespace, analysis.Spec.AnalysisDefinition.Name⟩ =
      .ok analysisDef

/-- The reconcile reaches the workers pool: it does not stop on a non-nil
stored map that leaves nothing to query. -/
def ReachesPool (a : AnalysisReconciler) (analysisDef : AnalysisDefinition)
    (analysis : Analysis) : Prop :=
  ¬ (analysis.Status.StoredValues.isSome ∧
      (partitionObjectives a analysisDef analysis).1.length = 0)

/-! ## Concrete collaborators and inputs -/

/-- Modelled from the spec: the key function `computeKey`, whose code is outside
the embedded files, as namespace, a slash, name. -/
def exampleComputeKey (ref : ObjectReference) : String :=
  ref.Namespace ++ "/" ++ ref.Name

/-- Modelled from the spec: the entry the workers pool (whose code is outside the
embedded files) records for one objective, the value on success and the message
on failure. -/
def exampleEntry (query : Objective → Except String String) (o : Objective) : ProviderResult :=
  match query o with
  | .ok value => ⟨o.AnalysisValueTemplateRef, value, ""⟩
  | .error msg => ⟨o.AnalysisValueTemplateRef, "", msg⟩

/-- Modelled from the spec: the workers pool, whose code is outside the embedded
files.  Every outstanding objective is queried, a failing query leaves an entry
with its message, and the call errs exactly when some query failed. -/
def examplePool (query : Objective → Except String String) (todo : List Objective) :
    Option StoredMap × Option GoError :=
  (some (todo.foldl
      (fun m o => m.set (exampleComputeKey o.AnalysisValueTemplateRef) (exampleEntry query o)) []),
    todo.findSome? (fun o =>
      match query o with
      | .ok _ => none
      | .error msg => some ⟨msg, false⟩))

/-- A reconciler over a store that holds one analysis and one definition and
accepts every status write; the verdict is fixed. -/
def exampleReconciler (stored : Analysis) (analysisDef : AnalysisDefinition)
    (query : Objective → Except String String) (verdict : AnalysisResult) :
    AnalysisReconciler where
  GetAnalysis := fun _ => .ok stored
  GetAnalysisDefinition := fun _ => .ok analysisDef
  StatusUpdate := fun _ => none
  MaxWorkers := 2
  Namespace := "keptn"
  DispatchAndCollect := fun _ todo _ => examplePool query todo
  Evaluate := fun _ _ => verdict
  ComputeKey := exampleComputeKey
  Marshal := fun _ => .ok "verdict"

/-- Template reference of the first example objective. -/
def refLatency : ObjectReference := ⟨"latency", "default"⟩

/-- Template reference of the second example objective. -/
def refErrors : ObjectReference := ⟨"errors", "default"⟩

/-- First example objective. -/
def objLatency : Objective := ⟨refLatency, false, 1⟩

/-- Second example objective. -/
def objErrors : Objective := ⟨refErrors, false, 1⟩

/-- A definition with the two example objectives. -/
def exampleDefinition : AnalysisDefinition := ⟨"slo", "default", ⟨[objLatency, objErrors]⟩⟩

/-- A definition without objectives. -/
def emptyDefinition : AnalysisDefinition := ⟨"slo", "default", ⟨[]⟩⟩

/-- The request of the example analysis. -/
def exampleRequest : NamespacedName := ⟨"default", "run"⟩

/-- The example analysis with a given status. -/
def exampleAnalysis (status : AnalysisStatus) : Analysis :=
  ⟨"run", "default", ⟨⟨0, 60⟩, [], ⟨"slo", "default"⟩⟩, status⟩

/-- The status of an analysis that was just created. -/
def freshStatus : AnalysisStatus := ⟨"", false, false, none⟩

/-- A stored result without error for the first objective. -/
def latencyOk : ProviderResult := ⟨refLatency, "7", ""⟩

/-- A stored result without error for the second objective. -/
def errorsOk : ProviderResult := ⟨refErrors, "0", ""⟩

/-- A stored result with an error for the second objective. -/
def errorsFailed : ProviderResult := ⟨refErrors, "", "timeout"⟩

/-- Stored values in which the first objective is resolved and the second failed. -/
def storedMixed : StoredMap :=
  [(exampleComputeKey refLatency, latencyOk), (exampleComputeKey refErrors, errorsFailed)]

/-- A provider that answers every query. -/
def queryAllOk (o : Objective) : Except String String :=
  if o = objLatency then .ok "7" else .ok "0"

/-- A provider that answers for the first objective and fails for every other. -/
def queryErrorsFail (o : Objective) : Except String String :=
  if o = objLatency then .ok "7" else .error "timeout"

/-- A verdict that passes without warning. -/
def verdictPass : AnalysisResult := ⟨true, false⟩

/-- Stored values in which both objectives are resolved. -/
def storedAllOk : StoredMap :=
  [(exampleComputeKey refLatency, latencyOk), (exampleComputeKey refErrors, errorsOk)]

/-- An analysis whose first objective is resolved and whose second failed. -/
def mixedAnalysis : Analysis := exampleAnalysis ⟨"", false, false, some storedMixed⟩

/-- A reconcile of `mixedAnalysis` in which the second objective fails again. -/
def retryFailsReconciler : AnalysisReconciler :=
  exampleReconciler mixedAnalysis exampleDefinition queryErrorsFail verdictPass

/-- A reconcile of `mixedAnalysis` in which the second objective now succeeds. -/
def retrySucceedsReconciler : AnalysisReconciler :=
  exampleReconciler mixedAnalysis exampleDefinition queryAllOk verdictPass

/-- A reconcile of a fresh analysis in which both objectives succeed. -/
def freshReconciler : AnalysisReconciler :=
  exampleReconciler (exampleAnalysis freshStatus) exampleDefinition queryAllOk verdictPass

/-- The analysis as `freshReconciler` hands it to the store. -/
def evaluatedAnalysis : Analysis := exampleAnalysis ⟨"verdict", true, false, none⟩

/-- The next reconcile after `freshReconciler`: the store holds what was written. -/
def secondReconciler : AnalysisReconciler :=
  exampleReconciler evaluatedAnalysis exampleDefinition queryAllOk verdictPass

/-- A reconcile of an analysis whose status carries a warning of an earlier
evaluation and has no stored values. -/
def warnedReconciler : AnalysisReconciler :=
  exampleReconciler (exampleAnalysis ⟨"", false, true, none⟩) exampleDefinition queryAllOk
    verdictPass

/-- A reconcile of a fresh analysis whose definition has no objectives. -/
def emptyFreshReconciler : AnalysisReconciler :=
  exampleReconciler (exampleAnalysis freshStatus) emptyDefinition queryAllOk verdictPass

/-- An analysis whose stored values resolve both objectives. -/
def resolvedAnalysis : Analysis := exampleAnalysis ⟨"verdict", true, false, some storedAllOk⟩

/-- A reconcile of `resolvedAnalysis`. -/
def resolvedReconciler : AnalysisReconciler :=
  exampleReconciler resolvedAnalysis exampleDefinition queryAllOk verdictPass

/-- A reconcile in which the read of the definition fails with an error other
than not-found. -/
def unreachableDefinitionReconciler : AnalysisReconciler :=
  { freshReconciler with
    GetAnalysisDefinition := fun _ => .error ⟨"connection refused", false⟩ }

/-! ## Maps -/

theorem get?_filter_ne (m : StoredMap) (k k1 : String) (h : k1 ≠ k) :
    StoredMap.get? (m.filter (fun e => e.1 ≠ k)) k1 = StoredMap.get? m k1 := by
  induction m with
  | nil => rfl
  | cons e t ih =>
    obtain ⟨a, b⟩ := e
    simp only [StoredMap.get?] at ih
    by_cases hak : a = k
    · subst hak
      have hne : (k1 == a) = false := by simpa using h
      simpa [StoredMap.get?, List.filter_cons, List.lookup_cons, hne] using ih
    · simp only [StoredMap.get?, List.filter_cons, ne_eq, hak, not_false_eq_true, decide_True,
        if_true, List.lookup_cons]
      rw [ih]

theorem get?_set (m : StoredMap) (k : String) (v : ProviderResult) (k1 : String) :
    (m.set k v).get? k1 = if k1 = k then some v else m.get? k1 := by
  by_cases h : k1 = k
  · subst h
    simp [StoredMap.set, StoredMap.get?, List.lookup_cons]
  · have hne : (k1 == k) = false := by simpa using h
    have := get?_filter_ne m k k1 h
    simp only [StoredMap.get?] at this
    simpa [StoredMap.set, StoredMap.get?, List.lookup_cons, hne, h] using this

theorem isResolved_iff (stored : Option StoredMap) (k : String) :
    isResolved stored k = true ↔ ∃ v, readMap stored k = some v ∧ v.ErrMsg = "" := by
  unfold isResolved
  cases h : readMap stored k with
  | none => simp
  | some v => simp

theorem get?_eq_none_of_not_mem_keys (m : StoredMap) (k : String)
    (h : k ∉ m.map Prod.fst) : m.get? k = none := by
  induction m with
  | nil => rfl
  | cons e t ih =>
    obtain ⟨a, b⟩ := e
    simp only [List.map_cons, List.mem_cons, not_or] at h
    have hne : (k == a) = false := by simpa using h.1
    have := ih h.2
    simp only [StoredMap.get?] at this
    simp [StoredMap.get?, List.lookup_cons, hne, this]

theorem keys_nodup_set (m : StoredMap) (k : String) (v : ProviderResult)
    (h : (m.map Prod.fst).Nodup) : ((m.set k v).map Prod.fst).Nodup := by
  unfold StoredMap.set
  rw [List.map_cons, List.nodup_cons]
  constructor
  · intro hk
    obtain ⟨e, he, hek⟩ := List.mem_map.1 hk
    have := (List.mem_filter.1 he).2
    simp at this
    exact this hek
  · exact (h.sublist ((List.filter_sublist m).map Prod.fst))

theorem foldl_set_get? (src d : StoredMap) (h : (src.map Prod.fst).Nodup) (k : String) :
    (src.foldl (fun m e => m.set e.1 e.2) d).get? k =
      match src.get? k with
      | some v => some v
      | none => d.get? k := by
  induction src generalizing d with
  | nil => rfl
  | cons e t ih =>
    obtain ⟨a, b⟩ := e
    rw [List.map_cons, List.nodup_cons] at h
    rw [List.foldl_cons, ih _ h.2]
    by_cases hk : k = a
    · subst hk
      have hnone := get?_eq_none_of_not_mem_keys t k h.1
      have hhead : StoredMap.get? ((k, b) :: t) k = some b := by
        simp [StoredMap.get?, List.lookup_cons]
      rw [hnone, hhead]
      show StoredMap.get? (d.set k b) k = some b
      rw [get?_set]
      simp
    · have hne : (k == a) = false := by simpa using hk
      have hcons : StoredMap.get? ((a, b) :: t) k = StoredMap.get? t k := by
        simp [StoredMap.get?, List.lookup_cons, hne]
      rw [hcons]
      cases StoredMap.get? t k with
      | some v => rfl
      | none => simp [get?_set, hk]

/-! ## The partition of the objectives -/

theorem extractStep_fst (key : ObjectReference → String) (S : StoredMap)
    (acc : List Objective × StoredMap) (obj : Objective) :
    (extractStep key S acc obj).1 =
      acc.1 ++ (if isResolved (some S) (key obj.AnalysisValueTemplateRef) then [] else [obj]) := by
  cases h : S.get? (key obj.AnalysisValueTemplateRef) with
  | none => simp [extractStep, isResolved, readMap, h]
  | some v =>
    by_cases hv : v.ErrMsg = ""
    · simp [extractStep, isResolved, readMap, h, hv]
    · simp [extractStep, isResolved, readMap, h, hv]

theorem extractStep_get? (key : ObjectReference → String) (S : StoredMap)
    (acc : List Objective × StoredMap) (obj : Objective) (k : String) :
    (extractStep key S acc obj).2.get? k =
      if (decide (key obj.AnalysisValueTemplateRef = k) && isResolved (some S) k) = true
      then S.get? k else acc.2.get? k := by
  by_cases hk : key obj.AnalysisValueTemplateRef = k
  · subst hk
    cases h : S.get? (key obj.AnalysisValueTemplateRef) with
    | none => simp [extractStep, isResolved, readMap, h]
    | some v =>
      by_cases hv : v.ErrMsg = ""
      · simp only [extractStep, isResolved, readMap, h, hv, ne_eq, not_true_eq_false, if_false]
        rw [get?_set]
        simp
      · simp [extractStep, isResolved, readMap, h, hv]
  · have hk2 : ¬ k = key obj.AnalysisValueTemplateRef := fun e => hk e.symm
    cases h : S.get? (key obj.AnalysisValueTemplateRef) with
    | none => simp [extractStep, h, hk]
    | some v =>
      by_cases hv : v.ErrMsg = ""
      · simp only [extractStep, h, hv, ne_eq, not_true_eq_false, if_false]
        rw [get?_set]
        simp [hk, hk2]
      · simp [extractStep, h, hv, hk]

theorem extractStep_nodup (key : ObjectReference → String) (S : StoredMap)
    (acc : List Objective × StoredMap) (obj : Objective)
    (h : (acc.2.map Prod.fst).Nodup) :
    ((extractStep key S acc obj).2.map Prod.fst).Nodup := by
  cases hS : S.get? (key obj.AnalysisValueTemplateRef) with
  | none => simpa [extractStep, hS] using h
  | some v =>
    by_cases hv : v.ErrMsg = ""
    · simpa [extractStep, hS, hv] using keys_nodup_set acc.2 _ v h
    · simpa [extractStep, hS, hv] using h

theorem foldl_extract_fst (key : ObjectReference → String) (S : StoredMap)
    (O : List Objective) (acc : List Objective × StoredMap) :
    (O.foldl (extractStep key S) acc).1 =
      acc.1 ++ O.filter (fun o => !isResolved (some S) (key o.AnalysisValueTemplateRef)) := by
  induction O generalizing acc with
  | nil => simp
  | cons o t ih =>
    rw [List.foldl_cons, ih, extractStep_fst, List.filter_cons]
    cases isResolved (some S) (key o.AnalysisValueTemplateRef) <;> simp

theorem foldl_extract_get? (key : ObjectReference → String) (S : StoredMap)
    (O : List Objective) (acc : List Objective × StoredMap) (k : String) :
    (O.foldl (extractStep key S) acc).2.get? k =
      if (O.any (fun o => decide (key o.AnalysisValueTemplateRef = k)) &&
          isResolved (some S) k) = true
      then S.get? k else acc.2.get? k := by
  induction O generalizing acc with
  | nil => simp
  | cons o t ih =>
    rw [List.foldl_cons, ih, extractStep_get?, List.any_cons]
    cases isResolved (some S) k <;>
      cases decide (key o.AnalysisValueTemplateRef = k) <;>
      cases t.any (fun o => decide (key o.AnalysisValueTemplateRef = k)) <;> simp

theorem foldl_extract_nodup (key : ObjectReference → String) (S : StoredMap)
    (O : List Objective) (acc : List Objective × StoredMap)
    (h : (acc.2.map Prod.fst).Nodup) :
    ((O.foldl (extractStep key S) acc).2.map Prod.fst).Nodup := by
  induction O generalizing acc with
  | nil => simpa using h
  | cons o t ih =>
    rw [List.foldl_cons]
    exact ih _ (extractStep_nodup key S acc o h)

theorem extract_todo_eq (key : ObjectReference → String) (O : List Objective) (S : StoredMap) :
    (extractMissingObjectives key O S).1 =
      O.filter (fun o => !isResolved (some S) (key o.AnalysisValueTemplateRef)) := by
  unfold extractMissingObjectives
  rw [foldl_extract_fst]
  rfl

theorem extract_done_get? (key : ObjectReference → String) (O : List Objective) (S : StoredMap)
    (k : String) :
    (extractMissingObjectives key O S).2.get? k =
      if (O.any (fun o => decide (key o.AnalysisValueTemplateRef = k)) &&
          isResolved (some S) k) = true
      then S.get? k else none := by
  unfold extractMissingObjectives
  rw [foldl_extract_get?]
  rfl

theorem extract_done_nodup (key : ObjectReference → String) (O : List Objective)
    (S : StoredMap) : ((extractMissingObjectives key O S).2.map Prod.fst).Nodup := by
  unfold extractMissingObjectives
  exact foldl_extract_nodup key S O _ (by simp)

theorem extract_done_get?_of_mem (key : ObjectReference → String) (O : List Objective)
    (S : StoredMap) (o : Objective) (ho : o ∈ O) :
    (extractMissingObjectives key O S).2.get? (key o.AnalysisValueTemplateRef) =
      if isResolved (some S) (key o.AnalysisValueTemplateRef) = true
      then S.get? (key o.AnalysisValueTemplateRef) else none := by
  have hany : O.any (fun x => decide (key x.AnalysisValueTemplateRef =
      key o.AnalysisValueTemplateRef)) = true := by
    rw [List.any_eq_true]
    exact ⟨o, ho, by simp⟩
  rw [extract_done_get?, hany]
  simp

/-- Claim C1.  For every objective list and stored map, an objective of the list
is resolved (the returned map has its key, bound to the stored entry) exactly
when the stored map has an entry without error at its key, and it is in the
returned todo list exactly when it is not resolved; it is never in both, it is
in one of the two, and the todo list keeps each of its occurrences. -/
theorem extractMissingObjectives_partition (key : ObjectReference → String)
    (O : List Objective) (S : StoredMap) (o : Objective) (ho : o ∈ O) :
    ((∃ v, S.get? (key o.AnalysisValueTemplateRef) = some v ∧ v.ErrMsg = "") ↔
      ∃ v, (extractMissingObjectives key O S).2.get? (key o.AnalysisValueTemplateRef) = some v ∧
        S.get? (key o.AnalysisValueTemplateRef) = some v) ∧
    (o ∈ (extractMissingObjectives key O S).1 ↔
      ¬ ∃ v, S.get? (key o.AnalysisValueTemplateRef) = some v ∧ v.ErrMsg = "") ∧
    (o ∈ (extractMissingObjectives key O S).1 ↔
      (extractMissingObjectives key O S).2.get? (key o.AnalysisValueTemplateRef) = none) ∧
    (o ∈ (extractMissingObjectives key O S).1 →
      (extractMissingObjectives key O S).1.count o = O.count o) := by
  have hres := isResolved_iff (some S) (key o.AnalysisValueTemplateRef)
  simp only [readMap] at hres
  have hdone := extract_done_get?_of_mem key O S o ho
  have htodo : o ∈ (extractMissingObjectives key O S).1 ↔
      isResolved (some S) (key o.AnalysisValueTemplateRef) = false := by
    rw [extract_todo_eq, List.mem_filter]
    simp [ho]
  cases hr : isResolved (some S) (key o.AnalysisValueTemplateRef) with
  | true =>
    obtain ⟨v, hv, hve⟩ := hres.1 hr
    rw [hr] at hdone htodo
    simp only [if_true] at hdone
    refine ⟨⟨fun _ => ⟨v, by rw [hdone, hv], hv⟩, fun _ => ⟨v, hv, hve⟩⟩, ?_, ?_, ?_⟩
    · simp only [htodo]
      constructor
      · intro h; cases h
      · intro h; exact absurd ⟨v, hv, hve⟩ h
    · simp only [htodo, hdone, hv]
      constructor
      · intro h; cases h
      · intro h; cases h
    · intro h
      cases htodo.1 h
  | false =>
    have hno : ¬ ∃ v, S.get? (key o.AnalysisValueTemplateRef) = some v ∧ v.ErrMsg = "" := by
      intro h
      have := hres.2 h
      rw [hr] at this
      cases this
    rw [hr] at hdone htodo
    simp only [Bool.false_eq_true, if_false] at hdone
    refine ⟨⟨fun h => absurd h hno, ?_⟩, ?_, ?_, ?_⟩
    · rintro ⟨v, hv, _⟩
      rw [hdone] at hv
      cases hv
    · simp only [htodo, true_iff]
      exact hno
    · simp only [htodo, hdone]
    · intro _
      rw [extract_todo_eq, List.count_filter]
      simp [hr]

/-- Witness of C1 on the two example objectives, the second of which failed. -/
theorem extractMissingObjectives_partition_witness :
    objErrors ∈ [objLatency, objErrors] ∧
    (objErrors ∈ (extractMissingObjectives exampleComputeKey [objLatency, objErrors]
        storedMixed).1 ↔
      (extractMissingObjectives exampleComputeKey [objLatency, objErrors]
        storedMixed).2.get? (exampleComputeKey objErrors.AnalysisValueTemplateRef) = none) :=
  ⟨by decide,
    (extractMissingObjectives_partition exampleComputeKey [objLatency, objErrors] storedMixed
      objErrors (by decide)).2.2.1⟩

/-! ## The partition as the reconcile computes it -/

theorem isResolved_congr (m1 m2 : Option StoredMap) (k : String)
    (h : readMap m1 k = readMap m2 k) : isResolved m1 k = isResolved m2 k := by
  unfold isResolved
  rw [h]

theorem partition_todo_eq (a : AnalysisReconciler) (d : AnalysisDefinition) (an : Analysis) :
    (partitionObjectives a d an).1 =
      d.Spec.Objectives.filter
        (fun o => !isResolved an.Status.StoredValues (a.ComputeKey o.AnalysisValueTemplateRef)) := by
  unfold partitionObjectives
  cases an.Status.StoredValues with
  | none => simp [isResolved, readMap]
  | some sv => exact extract_todo_eq a.ComputeKey d.Spec.Objectives sv

theorem partition_done_get? (a : AnalysisReconciler) (d : AnalysisDefinition) (an : Analysis)
    (k : String) :
    (partitionObjectives a d an).2.get? k =
      if (d.Spec.Objectives.any (fun o => decide (a.ComputeKey o.AnalysisValueTemplateRef = k)) &&
          isResolved an.Status.StoredValues k) = true
      then readMap an.Status.StoredValues k else none := by
  unfold partitionObjectives
  cases an.Status.StoredValues with
  | none => simp [isResolved, readMap, StoredMap.get?]
  | some sv => exact extract_done_get? a.ComputeKey d.Spec.Objectives sv k

theorem partition_done_nodup (a : AnalysisReconciler) (d : AnalysisDefinition) (an : Analysis) :
    ((partitionObjectives a d an).2.map Prod.fst).Nodup := by
  unfold partitionObjectives
  cases an.Status.StoredValues with
  | none => simp
  | some sv => exact extract_done_nodup a.ComputeKey d.Spec.Objectives sv

theorem mapsCopy_some (r src : StoredMap) :
    mapsCopy (some r) src = some (some (src.foldl (fun m e => m.set e.1 e.2) r)) := by
  cases src <;> rfl

/-! ## Unfolding a reconcile -/

theorem Reconcile_of_loads (a : AnalysisReconciler) (req : NamespacedName) (analysis : Analysis)
    (d : AnalysisDefinition) (h : Loads a req analysis d) :
    Reconcile a req = reconcileLoaded a d analysis := by
  obtain ⟨fetched, hA, rfl, hD⟩ := h
  unfold Reconcile
  simp only [hA, hD]

theorem reconcileLoaded_of_reaches (a : AnalysisReconciler) (d : AnalysisDefinition)
    (analysis : Analysis) (h : ReachesPool a d analysis) :
    reconcileLoaded a d analysis =
      dispatchAndEvaluate a d analysis (partitionObjectives a d analysis).1
        (partitionObjectives a d analysis).2 := by
  unfold reconcileLoaded
  unfold ReachesPool at h
  simp only [h, if_false]

theorem dispatch_of_error (a : AnalysisReconciler) (d : AnalysisDefinition) (analysis : Analysis)
    (todo : List Objective) (done : StoredMap) (e : GoError)
    (h : (a.DispatchAndCollect analysis todo a.MaxWorkers).2 = some e) :
    dispatchAndEvaluate a d analysis todo done =
      ⟨[Event.newWorkersPool analysis todo a.MaxWorkers, Event.dispatchAndCollect,
          Event.statusUpdate { analysis with Status := { analysis.Status with
            StoredValues := (a.DispatchAndCollect analysis todo a.MaxWorkers).1 } }],
        some ({ RequeueAfter := 10 * Second },
          a.StatusUpdate { analysis with Status := { analysis.Status with
            StoredValues := (a.DispatchAndCollect analysis todo a.MaxWorkers).1 } })⟩ := by
  unfold dispatchAndEvaluate
  simp only [h, updateStatus]
  rfl

theorem dispatch_of_merged (a : AnalysisReconciler) (d : AnalysisDefinition) (analysis : Analysis)
    (todo : List Objective) (done : StoredMap) (merged : Option StoredMap)
    (h : (a.DispatchAndCollect analysis todo a.MaxWorkers).2 = none)
    (hm : mapsCopy (a.DispatchAndCollect analysis todo a.MaxWorkers).1 done = some merged) :
    dispatchAndEvaluate a d analysis todo done =
      ⟨[Event.newWorkersPool analysis todo a.MaxWorkers, Event.dispatchAndCollect,
          Event.evaluate merged d,
          Event.reportResultsAsPromMetric (a.Evaluate merged d)
            (applyVerdict a (a.Evaluate merged d) analysis),
          Event.statusUpdate (applyVerdict a (a.Evaluate merged d) analysis)],
        some ({}, a.StatusUpdate (applyVerdict a (a.Evaluate merged d) analysis))⟩ := by
  unfold dispatchAndEvaluate
  simp only [h, hm, evaluateObjectives, updateStatus]
  rfl

theorem applyVerdict_pass (a : AnalysisReconciler) (eval : AnalysisResult) (analysis : Analysis) :
    (applyVerdict a eval analysis).Status.Pass = eval.Pass := by
  unfold applyVerdict
  rfl

theorem applyVerdict_warning (a : AnalysisReconciler) (eval : AnalysisResult)
    (analysis : Analysis) :
    (applyVerdict a eval analysis).Status.Warning = (analysis.Status.Warning || eval.Warning) := by
  unfold applyVerdict
  cases a.Marshal eval <;> cases eval.Warning <;> simp

theorem applyVerdict_storedValues (a : AnalysisReconciler) (eval : AnalysisResult)
    (analysis : Analysis) :
    (applyVerdict a eval analysis).Status.StoredValues = analysis.Status.StoredValues := by
  unfold applyVerdict
  cases a.Marshal eval <;> cases eval.Warning <;> simp

/-! ## Errors returned by a reconcile -/

theorem dispatch_error_iff (a : AnalysisReconciler) (d : AnalysisDefinition) (analysis : Analysis)
    (todo : List Objective) (done : StoredMap) (e : GoError) :
    (∃ r, (dispatchAndEvaluate a d analysis todo done).ret = some (r, some e)) ↔
      ∃ written, Event.statusUpdate written ∈ (dispatchAndEvaluate a d analysis todo done).trace ∧
        a.StatusUpdate written = some e := by
  cases hp : (a.DispatchAndCollect analysis todo a.MaxWorkers).2 with
  | some e1 =>
    rw [dispatch_of_error a d analysis todo done e1 hp]
    constructor
    · rintro ⟨r, hr⟩
      simp only [Option.some.injEq, Prod.mk.injEq] at hr
      exact ⟨_, by simp, hr.2⟩
    · rintro ⟨w, hw, hwe⟩
      simp only [List.mem_cons, List.mem_singleton, Event.statusUpdate.injEq, List.not_mem_nil,
        or_false, false_or, reduceCtorEq] at hw
      subst hw
      exact ⟨_, by rw [hwe]⟩
  | none =>
    cases hm : mapsCopy (a.DispatchAndCollect analysis todo a.MaxWorkers).1 done with
    | none =>
      have : dispatchAndEvaluate a d analysis todo done =
          ⟨[Event.newWorkersPool analysis todo a.MaxWorkers, Event.dispatchAndCollect], none⟩ := by
        unfold dispatchAndEvaluate
        simp only [hp, hm]
      rw [this]
      simp
    | some merged =>
      rw [dispatch_of_merged a d analysis todo done merged hp hm]
      constructor
      · rintro ⟨r, hr⟩
        simp only [Option.some.injEq, Prod.mk.injEq] at hr
        exact ⟨_, by simp, hr.2⟩
      · rintro ⟨w, hw, hwe⟩
        simp only [List.mem_cons, List.mem_singleton, Event.statusUpdate.injEq, List.not_mem_nil,
          or_false, false_or, reduceCtorEq] at hw
        subst hw
        exact ⟨_, by rw [hwe]⟩

theorem reconcileLoaded_error_iff (a : AnalysisReconciler) (d : AnalysisDefinition)
    (analysis : Analysis) (e : GoError) :
    (∃ r, (reconcileLoaded a d analysis).ret = some (r, some e)) ↔
      ∃ written, Event.statusUpdate written ∈ (reconcileLoaded a d analysis).trace ∧
        a.StatusUpdate written = some e := by
  by_cases h : ReachesPool a d analysis
  · rw [reconcileLoaded_of_reaches a d analysis h]
    exact dispatch_error_iff a d analysis _ _ e
  · have : reconcileLoaded a d analysis = ⟨[], some ({}, none)⟩ := by
      unfold ReachesPool at h
      unfold reconcileLoaded
      simp only [not_not] at h
      simp only [h, and_self, if_true]
    rw [this]
    simp

/-- Claim C7, amended.  A reconcile returns an error exactly when the read of
the analysis failed with an error other than not-found (that error is
returned), or a status write was made and failed (the error of the write is
returned).  An analysis that is not found ends the reconcile with an empty
result and no error, and every failed read of the definition, not-found or not,
ends it with a requeue after ten seconds and no error. -/
theorem reconcile_error_iff (a : AnalysisReconciler) (req : NamespacedName) :
    (∀ e, (∃ r, (Reconcile a req).ret = some (r, some e)) ↔
      ((a.GetAnalysis req = .error e ∧ e.notFound = false) ∨
        ∃ written, Event.statusUpdate written ∈ (Reconcile a req).trace ∧
          a.StatusUpdate written = some e)) ∧
    (∀ e, a.GetAnalysis req = .error e → e.notFound = true →
      Reconcile a req = ⟨[], some ({ Requeue := false, RequeueAfter := 0 }, none)⟩) ∧
    (∀ fetched e, a.GetAnalysis req = .ok fetched →
      a.GetAnalysisDefinition
        ⟨(defaultNamespace a fetched).Spec.AnalysisDefinition.Namespace,
          (defaultNamespace a fetched).Spec.AnalysisDefinition.Name⟩ = .error e →
      Reconcile a req =
        ⟨[], some ({ Requeue := e.notFound, RequeueAfter := 10 * Second }, none)⟩) := by
  refine ⟨?_, ?_, ?_⟩
  · intro e
    cases hA : a.GetAnalysis req with
    | error e1 =>
      cases hn : e1.notFound with
      | true =>
        have : Reconcile a req = ⟨[], some ({}, none)⟩ := by
          unfold Reconcile
          simp only [hA, hn, if_true]
        rw [this]
        constructor
        · rintro ⟨r, hr⟩
          simp at hr
        · rintro (⟨h1, h2⟩ | ⟨w, hw, _⟩)
          · simp only [Except.error.injEq] at h1
            subst h1
            rw [hn] at h2
            cases h2
          · simp at hw
      | false =>
        have : Reconcile a req = ⟨[], some ({}, some e1)⟩ := by
          unfold Reconcile
          simp only [hA, hn, Bool.false_eq_true, if_false]
        rw [this]
        constructor
        · rintro ⟨r, hr⟩
          simp only [Option.some.injEq, Prod.mk.injEq] at hr
          left
          rw [← hr.2]
          exact ⟨rfl, hn⟩
        · rintro (⟨h1, _⟩ | ⟨w, hw, _⟩)
          · simp only [Except.error.injEq] at h1
            subst h1
            exact ⟨_, rfl⟩
          · simp at hw
    | ok fetched =>
      cases hD : a.GetAnalysisDefinition
          ⟨(defaultNamespace a fetched).Spec.AnalysisDefinition.Namespace,
            (defaultNamespace a fetched).Spec.AnalysisDefinition.Name⟩ with
      | error e1 =>
        have : Reconcile a req =
            ⟨[], some ({ Requeue := e1.notFound, RequeueAfter := 10 * Second }, none)⟩ := by
          unfold Reconcile
          simp only [hA, hD]
          cases e1.notFound <;> simp
        rw [this]
        constructor
        · rintro ⟨r, hr⟩
          simp at hr
        · rintro (⟨h1, _⟩ | ⟨w, hw, _⟩)
          · cases h1
          · simp at hw
      | ok d =>
        rw [Reconcile_of_loads a req (defaultNamespace a fetched) d ⟨fetched, hA, rfl, hD⟩]
        rw [reconcileLoaded_error_iff]
        constructor
        · intro h
          exact Or.inr h
        · rintro (⟨h1, _⟩ | h)
          · cases h1
          · exact h
  · intro e hA hn
    unfold Reconcile
    simp only [hA, hn, if_true]
  · intro fetched e hA hD
    unfold Reconcile
    simp only [hA, hD]
    cases e.notFound <;> simp

/-! ## The reconcile around the workers pool -/

theorem dispatch_pool_todo (a : AnalysisReconciler) (d : AnalysisDefinition) (analysis : Analysis)
    (todo : List Objective) (done : StoredMap) (an : Analysis) (t : List Objective) (n : Int)
    (h : Event.newWorkersPool an t n ∈ (dispatchAndEvaluate a d analysis todo done).trace) :
    t = todo := by
  cases hp : (a.DispatchAndCollect analysis todo a.MaxWorkers).2 with
  | some e1 =>
    rw [dispatch_of_error a d analysis todo done e1 hp] at h
    simp only [List.mem_cons, Event.newWorkersPool.injEq, List.mem_singleton, List.not_mem_nil,
      or_false, reduceCtorEq] at h
    exact h.2.1
  | none =>
    cases hm : mapsCopy (a.DispatchAndCollect analysis todo a.MaxWorkers).1 done with
    | none =>
      have : dispatchAndEvaluate a d analysis todo done =
          ⟨[Event.newWorkersPool analysis todo a.MaxWorkers, Event.dispatchAndCollect], none⟩ := by
        unfold dispatchAndEvaluate
        simp only [hp, hm]
      rw [this] at h
      simp only [List.mem_cons, Event.newWorkersPool.injEq, List.mem_singleton, List.not_mem_nil,
        or_false, reduceCtorEq] at h
      exact h.2.1
    | some merged =>
      rw [dispatch_of_merged a d analysis todo done merged hp hm] at h
      simp only [List.mem_cons, Event.newWorkersPool.injEq, List.mem_singleton, List.not_mem_nil,
        or_false, reduceCtorEq] at h
      exact h.2.1

theorem reconcileLoaded_pool_todo (a : AnalysisReconciler) (d : AnalysisDefinition)
    (analysis : Analysis) (an : Analysis) (t : List Objective) (n : Int)
    (h : Event.newWorkersPool an t n ∈ (reconcileLoaded a d analysis).trace) :
    t = (partitionObjectives a d analysis).1 := by
  by_cases hr : ReachesPool a d analysis
  · rw [reconcileLoaded_of_reaches a d analysis hr] at h
    exact dispatch_pool_todo a d analysis _ _ an t n h
  · have : reconcileLoaded a d analysis = ⟨[], some ({}, none)⟩ := by
      unfold ReachesPool at hr
      unfold reconcileLoaded
      simp only [not_not] at hr
      simp only [hr, and_self, if_true]
    rw [this] at h
    simp at h

theorem merged_get? (a : AnalysisReconciler) (d : AnalysisDefinition) (analysis : Analysis)
    (r : StoredMap) (k : String) :
    ((partitionObjectives a d analysis).2.foldl (fun m e => m.set e.1 e.2) r).get? k =
      match (partitionObjectives a d analysis).2.get? k with
      | some v => some v
      | none => r.get? k :=
  foldl_set_get? _ r (partition_done_nodup a d analysis) k

/-- Claim C4.  When the workers pool returns an error, the reconcile makes no
call of the evaluator: it hands to the store the loaded analysis with the
collected results as stored values and with raw, pass and warning as they were,
and it asks for a requeue after ten seconds.  A later reconcile that loads a
status with these stored values puts an objective of its definition into the
todo list exactly when the stored values hold no entry without error at its
key, keeps the stored entry of every other objective among the resolved ones,
and hands the workers pool that todo list only. -/
theorem reconcile_pool_failure (a : AnalysisReconciler) (req : NamespacedName)
    (analysis : Analysis) (d : AnalysisDefinition) (e : GoError)
    (hload : Loads a req analysis d) (hreach : ReachesPool a d analysis)
    (hpool : (a.DispatchAndCollect analysis (partitionObjectives a d analysis).1
      a.MaxWorkers).2 = some e) :
    ∃ written : Analysis,
      written = { analysis with Status := { analysis.Status with StoredValues :=
        (a.DispatchAndCollect analysis (partitionObjectives a d analysis).1 a.MaxWorkers).1 } } ∧
      written.Status.Raw = analysis.Status.Raw ∧
      written.Status.Pass = analysis.Status.Pass ∧
      written.Status.Warning = analysis.Status.Warning ∧
      (Reconcile a req).trace =
        [Event.newWorkersPool analysis (partitionObjectives a d analysis).1 a.MaxWorkers,
          Event.dispatchAndCollect, Event.statusUpdate written] ∧
      (∀ m d1, Event.evaluate m d1 ∉ (Reconcile a req).trace) ∧
      (Reconcile a req).ret =
        some ({ Requeue := false, RequeueAfter := 10 * Second }, a.StatusUpdate written) ∧
      ∀ (b : AnalysisReconciler) (req2 : NamespacedName) (next : Analysis)
        (d2 : AnalysisDefinition), Loads b req2 next d2 →
        (∀ k, readMap next.Status.StoredValues k = readMap written.Status.StoredValues k) →
        (∀ o ∈ d2.Spec.Objectives, (o ∈ (partitionObjectives b d2 next).1 ↔
          ¬ ∃ v, readMap written.Status.StoredValues (b.ComputeKey o.AnalysisValueTemplateRef) =
            some v ∧ v.ErrMsg = "")) ∧
        (∀ o ∈ d2.Spec.Objectives, ∀ v,
          readMap written.Status.StoredValues (b.ComputeKey o.AnalysisValueTemplateRef) = some v →
          v.ErrMsg = "" →
          (partitionObjectives b d2 next).2.get? (b.ComputeKey o.AnalysisValueTemplateRef) =
            some v) ∧
        (∀ an t n, Event.newWorkersPool an t n ∈ (Reconcile b req2).trace →
          t = (partitionObjectives b d2 next).1 ∧ List.Sublist t d2.Spec.Objectives) := by
  refine ⟨_, rfl, rfl, rfl, rfl, ?_, ?_, ?_, ?_⟩
  · rw [Reconcile_of_loads a req analysis d hload, reconcileLoaded_of_reaches a d analysis hreach,
      dispatch_of_error a d analysis _ _ e hpool]
  · intro m d1
    rw [Reconcile_of_loads a req analysis d hload, reconcileLoaded_of_reaches a d analysis hreach,
      dispatch_of_error a d analysis _ _ e hpool]
    simp
  · rw [Reconcile_of_loads a req analysis d hload, reconcileLoaded_of_reaches a d analysis hreach,
      dispatch_of_error a d analysis _ _ e hpool]
  · intro b req2 next d2 hload2 hsame
    refine ⟨?_, ?_, ?_⟩
    · intro o ho
      rw [partition_todo_eq, List.mem_filter, ← isResolved_iff,
        ← isResolved_congr _ _ _ (hsame (b.ComputeKey o.AnalysisValueTemplateRef))]
      simp [ho]
    · intro o ho v hv hve
      have hres : isResolved next.Status.StoredValues
          (b.ComputeKey o.AnalysisValueTemplateRef) = true := by
        rw [isResolved_congr _ _ _ (hsame (b.ComputeKey o.AnalysisValueTemplateRef)),
          isResolved_iff]
        exact ⟨v, hv, hve⟩
      have hany : d2.Spec.Objectives.any (fun x => decide (b.ComputeKey x.AnalysisValueTemplateRef =
          b.ComputeKey o.AnalysisValueTemplateRef)) = true := by
        rw [List.any_eq_true]
        exact ⟨o, ho, by simp⟩
      rw [partition_done_get?, hany, hres, hsame, hv]
      simp
    · intro an t n h
      rw [Reconcile_of_loads b req2 next d2 hload2] at h
      have ht := reconcileLoaded_pool_todo b d2 next an t n h
      refine ⟨ht, ?_⟩
      rw [ht, partition_todo_eq]
      exact List.filter_sublist _

/-- Claim C9.  When the workers pool returns a map without error, the evaluator
is called once, with the definition and a map that holds, at every key the
partition resolved, the stored entry without error, and at every other key what
the pool returned there; if the pool returned an entry without error for every
objective it was given, that map has an entry without error at the key of every
objective of the definition. -/
theorem reconcile_merge (a : AnalysisReconciler) (req : NamespacedName)
    (analysis : Analysis) (d : AnalysisDefinition) (r : StoredMap)
    (hload : Loads a req analysis d) (hreach : ReachesPool a d analysis)
    (hpool : a.DispatchAndCollect analysis (partitionObjectives a d analysis).1 a.MaxWorkers =
      (some r, none)) :
    ∃ merged : StoredMap,
      (∀ m d1, Event.evaluate m d1 ∈ (Reconcile a req).trace ↔ (m = some merged ∧ d1 = d)) ∧
      (∀ k v, (partitionObjectives a d analysis).2.get? k = some v →
        merged.get? k = some v ∧ readMap analysis.Status.StoredValues k = some v ∧
          v.ErrMsg = "") ∧
      (∀ k, (partitionObjectives a d analysis).2.get? k = none → merged.get? k = r.get? k) ∧
      ((∀ o ∈ (partitionObjectives a d analysis).1,
          ∃ v, r.get? (a.ComputeKey o.AnalysisValueTemplateRef) = some v ∧ v.ErrMsg = "") →
        ∀ o ∈ d.Spec.Objectives,
          ∃ v, merged.get? (a.ComputeKey o.AnalysisValueTemplateRef) = some v ∧ v.ErrMsg = "") := by
  have hp2 : (a.DispatchAndCollect analysis (partitionObjectives a d analysis).1
      a.MaxWorkers).2 = none := by rw [hpool]
  have hm : mapsCopy (a.DispatchAndCollect analysis (partitionObjectives a d analysis).1
      a.MaxWorkers).1 (partitionObjectives a d analysis).2 =
      some (some ((partitionObjectives a d analysis).2.foldl (fun m e => m.set e.1 e.2) r)) := by
    rw [hpool]
    exact mapsCopy_some r _
  have hdone : ∀ k v, (partitionObjectives a d analysis).2.get? k = some v →
      readMap analysis.Status.StoredValues k = some v ∧ v.ErrMsg = "" := by
    intro k v hk
    rw [partition_done_get?] at hk
    split at hk
    · rename_i hc
      simp only [Bool.and_eq_true] at hc
      obtain ⟨w, hw, hwe⟩ := (isResolved_iff _ _).1 hc.2
      rw [hw] at hk
      cases hk
      exact ⟨hw, hwe⟩
    · cases hk
  refine ⟨(partitionObjectives a d analysis).2.foldl (fun m e => m.set e.1 e.2) r, ?_, ?_, ?_, ?_⟩
  · intro m d1
    rw [Reconcile_of_loads a req analysis d hload, reconcileLoaded_of_reaches a d analysis hreach,
      dispatch_of_merged a d analysis _ _ _ hp2 hm]
    simp
  · intro k v hk
    refine ⟨?_, hdone k v hk⟩
    rw [merged_get?, hk]
  · intro k hk
    rw [merged_get?, hk]
  · intro hall o ho
    rw [merged_get?]
    cases hres : isResolved analysis.Status.StoredValues
        (a.ComputeKey o.AnalysisValueTemplateRef) with
    | true =>
      obtain ⟨w, hw, hwe⟩ := (isResolved_iff _ _).1 hres
      have hany : d.Spec.Objectives.any (fun x => decide (a.ComputeKey x.AnalysisValueTemplateRef =
          a.ComputeKey o.AnalysisValueTemplateRef)) = true := by
        rw [List.any_eq_true]
        exact ⟨o, ho, by simp⟩
      rw [partition_done_get?, hany, hres, hw]
      exact ⟨w, by simp, hwe⟩
    | false =>
      have hin : o ∈ (partitionObjectives a d analysis).1 := by
        rw [partition_todo_eq, List.mem_filter]
        simp [ho, hres]
      rw [partition_done_get?, hres]
      simpa using hall o hin

/-- The run of a reconcile whose workers pool returns no error and whose merge
yields a map: the evaluator is called on the merged map and the definition, the
pass handed to the store is the pass of the verdict, the warning handed to the
store is the warning of the verdict when the loaded status carried none (and is
otherwise left set by the guard of `evaluateObjectives`), and the result asks
for no requeue. -/
theorem reconcile_verdict_status (a : AnalysisReconciler) (req : NamespacedName)
    (analysis : Analysis) (d : AnalysisDefinition) (merged : Option StoredMap)
    (hload : Loads a req analysis d) (hreach : ReachesPool a d analysis)
    (hpool : (a.DispatchAndCollect analysis (partitionObjectives a d analysis).1
      a.MaxWorkers).2 = none)
    (hmerge : mapsCopy (a.DispatchAndCollect analysis (partitionObjectives a d analysis).1
      a.MaxWorkers).1 (partitionObjectives a d analysis).2 = some merged) :
    ∃ written : Analysis,
      (Reconcile a req).trace =
        [Event.newWorkersPool analysis (partitionObjectives a d analysis).1 a.MaxWorkers,
          Event.dispatchAndCollect, Event.evaluate merged d,
          Event.reportResultsAsPromMetric (a.Evaluate merged d) written,
          Event.statusUpdate written] ∧
      written.Status.Pass = (a.Evaluate merged d).Pass ∧
      written.Status.Warning = (analysis.Status.Warning || (a.Evaluate merged d).Warning) ∧
      (analysis.Status.Warning = false →
        written.Status.Warning = (a.Evaluate merged d).Warning) ∧
      (Reconcile a req).ret =
        some ({ Requeue := false, RequeueAfter := 0 }, a.StatusUpdate written) := by
  refine ⟨applyVerdict a (a.Evaluate merged d) analysis, ?_, applyVerdict_pass _ _ _,
    applyVerdict_warning _ _ _, ?_, ?_⟩
  · rw [Reconcile_of_loads a req analysis d hload, reconcileLoaded_of_reaches a d analysis hreach,
      dispatch_of_merged a d analysis _ _ merged hpool hmerge]
  · intro hw
    rw [applyVerdict_warning, hw]
    simp
  · rw [Reconcile_of_loads a req analysis d hload, reconcileLoaded_of_reaches a d analysis hreach,
      dispatch_of_merged a d analysis _ _ merged hpool hmerge]

/-- Claim C10, amended.  When the analysis and its definition load, the stored
values are not nil and the partition leaves nothing to query, the reconcile
stops there: it makes no call of the workers pool, of the evaluator or of the
store, and returns an empty result without error. -/
theorem reconcile_resolved_noop (a : AnalysisReconciler) (req : NamespacedName)
    (analysis : Analysis) (d : AnalysisDefinition) (sv : StoredMap)
    (hload : Loads a req analysis d) (hsv : analysis.Status.StoredValues = some sv)
    (htodo : (extractMissingObjectives a.ComputeKey d.Spec.Objectives sv).1 = []) :
    Reconcile a req = ⟨[], some ({ Requeue := false, RequeueAfter := 0 }, none)⟩ := by
  rw [Reconcile_of_loads a req analysis d hload]
  unfold reconcileLoaded partitionObjectives
  simp [hsv, htodo]

/-! ## The reconcile on concrete runs -/

/-- Claim C2 on a concrete run.  The stored values resolve the first objective
and hold a failure of the second; the second fails again.  The status handed to
the store holds the new failure only: the resolved entry of the first objective
is gone. -/
theorem reconcile_failure_drops_resolved :
    readMap mixedAnalysis.Status.StoredValues (exampleComputeKey refLatency) = some latencyOk ∧
    Reconcile retryFailsReconciler exampleRequest =
      ⟨[Event.newWorkersPool mixedAnalysis [objErrors] 2, Event.dispatchAndCollect,
          Event.statusUpdate (exampleAnalysis ⟨"", false, false,
            some [(exampleComputeKey refErrors, errorsFailed)]⟩)],
        some ({ Requeue := false, RequeueAfter := 10 * Second }, none)⟩ ∧
    readMap (some [(exampleComputeKey refErrors, errorsFailed)])
      (exampleComputeKey refLatency) = none := by
  decide

/-- Claim C3 on a concrete run.  A fresh analysis is reconciled, both objectives
succeed, the verdict is computed and the store accepts the status.  The next
reconcile, which loads the written analysis, calls the workers pool with both
objectives, calls the evaluator and writes the status again. -/
theorem reconcile_again_dispatches :
    Reconcile freshReconciler exampleRequest =
      ⟨[Event.newWorkersPool (exampleAnalysis freshStatus) [objLatency, objErrors] 2,
          Event.dispatchAndCollect,
          Event.evaluate (some [(exampleComputeKey refErrors, errorsOk),
            (exampleComputeKey refLatency, latencyOk)]) exampleDefinition,
          Event.reportResultsAsPromMetric verdictPass evaluatedAnalysis,
          Event.statusUpdate evaluatedAnalysis],
        some ({ Requeue := false, RequeueAfter := 0 }, none)⟩ ∧
    freshReconciler.StatusUpdate evaluatedAnalysis = none ∧
    secondReconciler.GetAnalysis exampleRequest = .ok evaluatedAnalysis ∧
    Reconcile secondReconciler exampleRequest =
      ⟨[Event.newWorkersPool evaluatedAnalysis [objLatency, objErrors] 2,
          Event.dispatchAndCollect,
          Event.evaluate (some [(exampleComputeKey refErrors, errorsOk),
            (exampleComputeKey refLatency, latencyOk)]) exampleDefinition,
          Event.reportResultsAsPromMetric verdictPass evaluatedAnalysis,
          Event.statusUpdate evaluatedAnalysis],
        some ({ Requeue := false, RequeueAfter := 0 }, none)⟩ :=
  ⟨by decide, rfl, rfl, by decide⟩

/-- Claim C6 on a concrete run.  A fresh analysis is reconciled and both
objectives succeed on the first pass: the one status handed to the store has no
stored values, so it holds the resolved entry of neither objective. -/
theorem reconcile_success_stores_nothing :
    (∀ written, Event.statusUpdate written ∈ (Reconcile freshReconciler exampleRequest).trace →
      written.Status.StoredValues = none) ∧
    Event.statusUpdate evaluatedAnalysis ∈ (Reconcile freshReconciler exampleRequest).trace ∧
    readMap evaluatedAnalysis.Status.StoredValues (exampleComputeKey refLatency) = none ∧
    readMap evaluatedAnalysis.Status.StoredValues (exampleComputeKey refErrors) = none := by
  have h : (Reconcile freshReconciler exampleRequest).trace =
      [Event.newWorkersPool (exampleAnalysis freshStatus) [objLatency, objErrors] 2,
        Event.dispatchAndCollect,
        Event.evaluate (some [(exampleComputeKey refErrors, errorsOk),
          (exampleComputeKey refLatency, latencyOk)]) exampleDefinition,
        Event.reportResultsAsPromMetric verdictPass evaluatedAnalysis,
        Event.statusUpdate evaluatedAnalysis] := by decide
  rw [h]
  refine ⟨?_, by simp, by decide, by decide⟩
  intro written hw
  simp only [List.mem_cons, List.mem_singleton, List.not_mem_nil, or_false, false_or,
    reduceCtorEq, Event.statusUpdate.injEq] at hw
  subst hw
  rfl

/-- Claim C5 on a concrete run.  The status carries a warning of an earlier
evaluation, both objectives succeed and the verdict passes without warning: the
status handed to the store has the pass of the verdict, but its warning is
still set, unlike the warning of the verdict. -/
theorem reconcile_keeps_earlier_warning :
    Reconcile warnedReconciler exampleRequest =
      ⟨[Event.newWorkersPool (exampleAnalysis ⟨"", false, true, none⟩) [objLatency, objErrors] 2,
          Event.dispatchAndCollect,
          Event.evaluate (some [(exampleComputeKey refErrors, errorsOk),
            (exampleComputeKey refLatency, latencyOk)]) exampleDefinition,
          Event.reportResultsAsPromMetric verdictPass (exampleAnalysis ⟨"verdict", true, true, none⟩),
          Event.statusUpdate (exampleAnalysis ⟨"verdict", true, true, none⟩)],
        some ({ Requeue := false, RequeueAfter := 0 }, none)⟩ ∧
    (exampleAnalysis ⟨"verdict", true, true, none⟩).Status.Warning ≠
      (warnedReconciler.Evaluate (some [(exampleComputeKey refErrors, errorsOk),
        (exampleComputeKey refLatency, latencyOk)]) exampleDefinition).Warning := by
  decide

/-- Counterexample to C7.  The read of the definition fails with an error other
than not-found, and the reconcile returns no error. -/
theorem reconcile_definition_read_failure_no_error :
    unreachableDefinitionReconciler.GetAnalysisDefinition ⟨"default", "slo"⟩ =
      .error ⟨"connection refused", false⟩ ∧
    Reconcile unreachableDefinitionReconciler exampleRequest =
      ⟨[], some ({ Requeue := false, RequeueAfter := 10 * Second }, none)⟩ :=
  ⟨rfl, by decide⟩

/-- Counterexample to C10.  The stored values are nil and the definition has no
objectives, so nothing is left to query; the reconcile still calls the workers
pool and the evaluator and writes the status. -/
theorem reconcile_nil_stored_values_dispatches :
    (exampleAnalysis freshStatus).Status.StoredValues = none ∧
    (partitionObjectives emptyFreshReconciler emptyDefinition (exampleAnalysis freshStatus)).1 =
      [] ∧
    Reconcile emptyFreshReconciler exampleRequest =
      ⟨[Event.newWorkersPool (exampleAnalysis freshStatus) [] 2, Event.dispatchAndCollect,
          Event.evaluate (some []) emptyDefinition,
          Event.reportResultsAsPromMetric verdictPass evaluatedAnalysis,
          Event.statusUpdate evaluatedAnalysis],
        some ({ Requeue := false, RequeueAfter := 0 }, none)⟩ := by
  decide

/-! ## The general statements at concrete runs -/

/-- Witness of C4: the second objective fails again on the retry. -/
theorem reconcile_pool_failure_witness :
    Loads retryFailsReconciler exampleRequest mixedAnalysis exampleDefinition ∧
    ReachesPool retryFailsReconciler exampleDefinition mixedAnalysis ∧
    (retryFailsReconciler.DispatchAndCollect mixedAnalysis
      (partitionObjectives retryFailsReconciler exampleDefinition mixedAnalysis).1
      retryFailsReconciler.MaxWorkers).2 = some ⟨"timeout", false⟩ ∧
    ∃ written : Analysis,
      (Reconcile retryFailsReconciler exampleRequest).ret =
        some ({ Requeue := false, RequeueAfter := 10 * Second },
          retryFailsReconciler.StatusUpdate written) := by
  have hload : Loads retryFailsReconciler exampleRequest mixedAnalysis exampleDefinition :=
    ⟨mixedAnalysis, rfl, by decide, rfl⟩
  have hreach : ReachesPool retryFailsReconciler exampleDefinition mixedAnalysis := by
    unfold ReachesPool
    decide
  have hpool : (retryFailsReconciler.DispatchAndCollect mixedAnalysis
      (partitionObjectives retryFailsReconciler exampleDefinition mixedAnalysis).1
      retryFailsReconciler.MaxWorkers).2 = some ⟨"timeout", false⟩ := by decide
  obtain ⟨w, h⟩ := reconcile_pool_failure retryFailsReconciler exampleRequest mixedAnalysis
    exampleDefinition ⟨"timeout", false⟩ hload hreach hpool
  exact ⟨hload, hreach, hpool, w, h.2.2.2.2.2.2.1⟩

/-- Witness of C9: the second objective succeeds on the retry. -/
theorem reconcile_merge_witness :
    Loads retrySucceedsReconciler exampleRequest mixedAnalysis exampleDefinition ∧
    ReachesPool retrySucceedsReconciler exampleDefinition mixedAnalysis ∧
    retrySucceedsReconciler.DispatchAndCollect mixedAnalysis
      (partitionObjectives retrySucceedsReconciler exampleDefinition mixedAnalysis).1
      retrySucceedsReconciler.MaxWorkers =
      (some [(exampleComputeKey refErrors, errorsOk)], none) ∧
    ∃ merged : StoredMap,
      (∀ m d1, Event.evaluate m d1 ∈ (Reconcile retrySucceedsReconciler exampleRequest).trace ↔
        (m = some merged ∧ d1 = exampleDefinition)) ∧
      (∀ k, (partitionObjectives retrySucceedsReconciler exampleDefinition
          mixedAnalysis).2.get? k = none →
        merged.get? k = StoredMap.get? [(exampleComputeKey refErrors, errorsOk)] k) := by
  have hload : Loads retrySucceedsReconciler exampleRequest mixedAnalysis exampleDefinition :=
    ⟨mixedAnalysis, rfl, by decide, rfl⟩
  have hreach : ReachesPool retrySucceedsReconciler exampleDefinition mixedAnalysis := by
    unfold ReachesPool
    decide
  have hpool : retrySucceedsReconciler.DispatchAndCollect mixedAnalysis
      (partitionObjectives retrySucceedsReconciler exampleDefinition mixedAnalysis).1
      retrySucceedsReconciler.MaxWorkers =
      (some [(exampleComputeKey refErrors, errorsOk)], none) := by decide
  obtain ⟨w, h⟩ := reconcile_merge retrySucceedsReconciler exampleRequest mixedAnalysis
    exampleDefinition [(exampleComputeKey refErrors, errorsOk)] hload hreach hpool
  exact ⟨hload, hreach, hpool, w, h.1, h.2.2.1⟩

/-- Witness of C10: both objectives are resolved by the stored values. -/
theorem reconcile_resolved_noop_witness :
    Loads resolvedReconciler exampleRequest resolvedAnalysis exampleDefinition ∧
    resolvedAnalysis.Status.StoredValues = some storedAllOk ∧
    (extractMissingObjectives resolvedReconciler.ComputeKey exampleDefinition.Spec.Objectives
      storedAllOk).1 = [] ∧
    Reconcile resolvedReconciler exampleRequest =
      ⟨[], some ({ Requeue := false, RequeueAfter := 0 }, none)⟩ :=
  ⟨⟨resolvedAnalysis, rfl, by decide, rfl⟩, rfl, by decide,
    reconcile_resolved_noop resolvedReconciler exampleRequest resolvedAnalysis exampleDefinition
      storedAllOk ⟨resolvedAnalysis, rfl, by decide, rfl⟩ rfl (by decide)⟩

end Keptn
